import Mathlib

/-!
Verification of the detection post-processing pipeline of
`yolo_inference_server.py`: IoU, greedy NMS, the YOLO output decoder,
coordinate mapping, and the `/detect` HTTP handler, shallowly embedded
over exact rational arithmetic.
-/

namespace YoloServer

/-- A detection record in original-image space, as built by
`postprocess_output`: corner-format box, confidence, label, class id. -/
structure Detection where
  x : ℚ
  y : ℚ
  width : ℚ
  height : ℚ
  confidence : ℚ
  label : String
  class_id : ℕ
  deriving DecidableEq, Repr

/-- A raw candidate as produced by `extract_detections`: center-format
box in model input space plus confidence and class id. -/
structure Candidate where
  cx : ℚ
  cy : ℚ
  w : ℚ
  h : ℚ
  confidence : ℚ
  class_id : ℕ
  deriving DecidableEq, Repr

/-- `calculate_iou(box1, box2)` from the source: intersection over union
with the guard returning 0.0 when either box has non-positive area or
the union is non-positive. -/
def calculate_iou (box1 box2 : Detection) : ℚ :=
  let x1 := max box1.x box2.x
  let y1 := max box1.y box2.y
  let x2 := min (box1.x + box1.width) (box2.x + box2.width)
  let y2 := min (box1.y + box1.height) (box2.y + box2.height)
  let intersection_area := max 0 (x2 - x1) * max 0 (y2 - y1)
  let box1_area := box1.width * box1.height
  let box2_area := box2.width * box2.height
  if box1_area ≤ 0 ∨ box2_area ≤ 0 then 0
  else
    let union_area := box1_area + box2_area - intersection_area
    if 0 < union_area then intersection_area / union_area else 0

/-- The `while boxes:` loop of `apply_nms`: pop the head, keep it, drop
every remaining box whose IoU with it is at least the threshold. -/
def nmsLoop (t : ℚ) : List Detection → List Detection
  | [] => []
  | current :: rest =>
      current ::
        nmsLoop t (rest.filter (fun box => decide (calculate_iou current box < t)))
termination_by l => l.length
decreasing_by
  exact Nat.lt_succ_of_le (List.length_filter_le _ _)

/-- The comparator of the stable descending sort in `apply_nms`:
`a` may precede `b` when the confidence of `a` is at least that of `b`. -/
def confDesc (a b : Detection) : Bool := decide (b.confidence ≤ a.confidence)

/-- `apply_nms(boxes, iou_threshold)` from the source: stable sort by
descending confidence, then the greedy suppression loop. -/
def apply_nms (boxes : List Detection) (iou_threshold : ℚ) : List Detection :=
  if boxes = [] then []
  else nmsLoop iou_threshold (boxes.mergeSort confDesc)

/-- `float(np.max(scores))`: maximum of a score list (0 on the empty
list, which the Python code never reaches for well-formed tensors). -/
def listMax : List ℚ → ℚ
  | [] => 0
  | a :: rest => rest.foldl max a

/-- Accumulator loop for `np.argmax`: the current best index is replaced
only on a strictly larger value, so the first occurrence of the maximum
wins. -/
def argmaxGo : List ℚ → ℕ → ℕ → ℚ → ℕ
  | [], _, best, _ => best
  | a :: rest, i, best, bestVal =>
      if bestVal < a then argmaxGo rest (i + 1) i a
      else argmaxGo rest (i + 1) best bestVal

/-- `int(np.argmax(scores))`: index of the first occurrence of the
maximum (0 on the empty list). -/
def listArgmax : List ℚ → ℕ
  | [] => 0
  | a :: rest => argmaxGo rest 1 0 a

/-- `output[r, i]` for the batch-stripped output tensor, modelled as a
list of rows; out-of-range reads default to 0 (a rectangular numpy
array never takes the default). -/
def colVal (output : List (List ℚ)) (r i : ℕ) : ℚ :=
  (output.getD r []).getD i 0

/-- `output[4:, i]`: the per-class score column `i`. -/
def colScores (output : List (List ℚ)) (i : ℕ) : List ℚ :=
  (output.drop 4).map (fun row => row.getD i 0)

/-- `output.shape[1]`: the number of candidate columns. -/
def numCols (output : List (List ℚ)) : ℕ := (output.headD []).length

/-- `extract_detections(output, confidence_threshold)` from the source:
scan columns in ascending order, emit a candidate when the argmax class
is 0 and the max score reaches the threshold. -/
def extract_detections (output : List (List ℚ)) (confidence_threshold : ℚ) :
    List Candidate :=
  (List.range (numCols output)).filterMap (fun i =>
    let class_scores := colScores output i
    let max_score := listMax class_scores
    let max_class := listArgmax class_scores
    if max_class = 0 ∧ confidence_threshold ≤ max_score then
      some { cx := colVal output 0 i, cy := colVal output 1 i,
             w := colVal output 2 i, h := colVal output 3 i,
             confidence := max_score, class_id := max_class }
    else none)

/-- `convert_coordinates(cx, cy, w, h, original_size, input_size)` from
the source: center-to-corner conversion with independent per-axis
rescaling. -/
def convert_coordinates (cx cy w h : ℚ) (original_size : ℚ × ℚ)
    (input_size : ℚ) : ℚ × ℚ × ℚ × ℚ :=
  let scale_x := original_size.1 / input_size
  let scale_y := original_size.2 / input_size
  ((cx - w / 2) * scale_x, (cy - h / 2) * scale_y, w * scale_x, h * scale_y)

/-- `postprocess_output(output, original_size, ct, it, input_size)` from
the source: decode, map each candidate to image space with the fixed
label "person", then NMS. -/
def postprocess_output (output : List (List ℚ)) (original_size : ℚ × ℚ)
    (confidence_threshold iou_threshold input_size : ℚ) : List Detection :=
  let raw_detections := extract_detections output confidence_threshold
  let detections := raw_detections.map (fun det =>
    let c := convert_coordinates det.cx det.cy det.w det.h original_size input_size
    { x := c.1, y := c.2.1, width := c.2.2.1, height := c.2.2.2,
      confidence := det.confidence, label := "person",
      class_id := det.class_id : Detection })
  apply_nms detections iou_threshold

/-- Response body of the `/detect` handler: either a JSON error payload
or the detections payload. -/
inductive Body where
  | errorMsg (msg : String)
  | result (detections : List Detection) (count : ℕ) (original_size : ℚ × ℚ)
  deriving DecidableEq, Repr

/-- The inputs the `/detect` handler reacts to, with each fallible
external step (query-string `float(...)` parses, `preprocess_image`,
`session.run`) modelled by its outcome: `Except.error m` means the step
raised a Python exception with message `m`. -/
structure DetectRequest where
  bodyNonempty : Bool
  confidenceParse : Except String ℚ
  iouParse : Except String ℚ
  preprocessResult : Except String (ℚ × ℚ)
  inferResult : Except String (List (List ℚ))
  deriving Repr

/-- The `/detect` handler from the source: model-loaded check, empty
body check, then the try-block whose stages run in order, any raising
stage answered 500 by the blanket `except` handler. -/
def detect (modelLoaded : Bool) (req : DetectRequest) : ℕ × Body :=
  if modelLoaded = false then (500, .errorMsg "Model not loaded")
  else if req.bodyNonempty = false then (400, .errorMsg "No image data provided")
  else
    match req.confidenceParse with
    | .error m => (500, .errorMsg m)
    | .ok confidence_threshold =>
      match req.iouParse with
      | .error m => (500, .errorMsg m)
      | .ok iou_threshold =>
        match req.preprocessResult with
        | .error m => (500, .errorMsg m)
        | .ok original_size =>
          match req.inferResult with
          | .error m => (500, .errorMsg m)
          | .ok output =>
            let detections :=
              postprocess_output output original_size confidence_threshold
                iou_threshold 640
            (200, .result detections detections.length original_size)

/-- The emission test of the decoder as the spec words it: the first
score row attains the maximum of the column, i.e. the argmax with ties
broken by the first-occurring lowest index is the target class 0. -/
def headIsMax (l : List ℚ) : Prop := ∀ x ∈ l, x ≤ l.headD 0

instance (l : List ℚ) : Decidable (headIsMax l) :=
  inferInstanceAs (Decidable (∀ x ∈ l, x ≤ l.headD 0))

/-- The candidate the spec describes for an emitted column `i`: box
rows 0 to 3 of that column, the maximal class score as confidence, and
class 0. -/
def specCandidate (output : List (List ℚ)) (i : ℕ) : Candidate :=
  { cx := colVal output 0 i, cy := colVal output 1 i,
    w := colVal output 2 i, h := colVal output 3 i,
    confidence := listMax (colScores output i), class_id := 0 }

/-! ### Basic facts about `calculate_iou` -/

theorem calculate_iou_comm (a b : Detection) :
    calculate_iou a b = calculate_iou b a := by
  simp only [calculate_iou]
  rcases le_or_lt (a.width * a.height) 0 with h1 | h1
  · rw [if_pos (Or.inl h1), if_pos (Or.inr h1)]
  · rcases le_or_lt (b.width * b.height) 0 with h2 | h2
    · rw [if_pos (Or.inr h2), if_pos (Or.inl h2)]
    · have hna : ¬(a.width * a.height ≤ 0 ∨ b.width * b.height ≤ 0) := by
        push_neg
        exact ⟨h1, h2⟩
      have hnb : ¬(b.width * b.height ≤ 0 ∨ a.width * a.height ≤ 0) := by
        push_neg
        exact ⟨h2, h1⟩
      rw [if_neg hna, if_neg hnb]
      rw [max_comm a.x b.x, max_comm a.y b.y,
        min_comm (a.x + a.width) (b.x + b.width),
        min_comm (a.y + a.height) (b.y + b.height),
        add_comm (a.width * a.height) (b.width * b.height)]

theorem calculate_iou_nonpos_area (box1 box2 : Detection)
    (h : box1.width * box1.height ≤ 0 ∨ box2.width * box2.height ≤ 0) :
    calculate_iou box1 box2 = 0 := by
  simp only [calculate_iou]
  rw [if_pos h]

/-- The box used to refute C4 as frozen: both dimensions are negative,
so the product `width * height` is positive while the code computes an
empty intersection. -/
def negBox : Detection :=
  { x := 0, y := 0, width := -1, height := -1, confidence := 1/2,
    label := "person", class_id := 0 }

/-- A concrete well-formed box for witnesses. -/
def okBox : Detection :=
  { x := 0, y := 0, width := 2, height := 3, confidence := 9/10,
    label := "person", class_id := 0 }

/-- C4 (counterexample): `negBox` has `width * height = 1 > 0`, yet
`calculate_iou negBox negBox = 0`, not `1.0`. -/
theorem calculate_iou_self_counterexample :
    0 < negBox.width * negBox.height ∧ calculate_iou negBox negBox ≠ 1 := by
  constructor
  · norm_num [negBox]
  · norm_num [calculate_iou, negBox]

/-- C4 (amended): for every box whose width and height are both
positive, `calculate_iou` of the box with itself is exactly 1. -/
theorem calculate_iou_self (A : Detection) (hw : 0 < A.width)
    (hh : 0 < A.height) : calculate_iou A A = 1 := by
  have harea : 0 < A.width * A.height := mul_pos hw hh
  have hna : ¬(A.width * A.height ≤ 0 ∨ A.width * A.height ≤ 0) := by
    push_neg
    exact ⟨harea, harea⟩
  simp only [calculate_iou]
  rw [if_neg hna]
  rw [max_self, max_self, min_self, min_self]
  have h1 : A.x + A.width - A.x = A.width := by ring
  have h2 : A.y + A.height - A.y = A.height := by ring
  rw [h1, h2, max_eq_right hw.le, max_eq_right hh.le]
  have h3 : A.width * A.height + A.width * A.height - A.width * A.height
      = A.width * A.height := by ring
  rw [h3, if_pos harea, div_self (ne_of_gt harea)]

/-- C4 (witness): the amended theorem applied to the concrete box
`okBox` with width 2 and height 3. -/
theorem calculate_iou_self_witness :
    0 < okBox.width ∧ 0 < okBox.height ∧ calculate_iou okBox okBox = 1 :=
  ⟨by norm_num [okBox], by norm_num [okBox],
    calculate_iou_self okBox (by norm_num [okBox]) (by norm_num [okBox])⟩

/-! ### The coordinate mapper -/

/-- C9: with a square original size equal to the (nonzero) model input
size, `convert_coordinates` is exactly the center-to-corner conversion
with no scaling. -/
theorem convert_coordinates_square_identity (cx cy w h s : ℚ) (hs : s ≠ 0) :
    convert_coordinates cx cy w h (s, s) s = (cx - w / 2, cy - h / 2, w, h) := by
  simp only [convert_coordinates]
  rw [div_self hs]
  simp

/-- C9 (witness): the identity at the concrete candidate
`(10, 20, 4, 6)` with input size 640. -/
theorem convert_coordinates_square_identity_witness :
    (640 : ℚ) ≠ 0 ∧
      convert_coordinates 10 20 4 6 (640, 640) 640
        = (10 - 4 / 2, 20 - 6 / 2, 4, 6) :=
  ⟨by norm_num, convert_coordinates_square_identity 10 20 4 6 640 (by norm_num)⟩

/-! ### The greedy suppression loop -/

theorem nmsLoop_sublist (t : ℚ) (l : List Detection) :
    List.Sublist (nmsLoop t l) l := by
  induction l using nmsLoop.induct t with
  | case1 => simp [nmsLoop]
  | case2 current rest ih =>
      rw [nmsLoop]
      exact (ih.trans (List.filter_sublist rest)).cons₂ current

theorem nmsLoop_pairwise_iou (t : ℚ) (l : List Detection) :
    (nmsLoop t l).Pairwise (fun a b => calculate_iou a b < t) := by
  induction l using nmsLoop.induct t with
  | case1 => simp [nmsLoop]
  | case2 current rest ih =>
      rw [nmsLoop]
      refine List.pairwise_cons.mpr ⟨?_, ih⟩
      intro b hb
      have hb2 : b ∈ rest.filter (fun box => decide (calculate_iou current box < t)) :=
        (nmsLoop_sublist t _).subset hb
      simpa using List.of_mem_filter hb2

theorem nmsLoop_eq_self (t : ℚ) (l : List Detection)
    (h : l.Pairwise (fun a b => calculate_iou a b < t)) : nmsLoop t l = l := by
  induction l with
  | nil => simp [nmsLoop]
  | cons a rest ih =>
      rw [nmsLoop]
      obtain ⟨ha, hrest⟩ := List.pairwise_cons.mp h
      have hfilter :
          rest.filter (fun box => decide (calculate_iou a box < t)) = rest := by
        apply List.filter_eq_self.mpr
        intro b hb
        exact decide_eq_true (ha b hb)
      rw [hfilter, ih hrest]

/-! ### Properties of `apply_nms` -/

theorem confDesc_trans :
    ∀ a b c : Detection, confDesc a b → confDesc b c → confDesc a c := by
  intro a b c hab hbc
  simp only [confDesc, decide_eq_true_eq] at *
  exact le_trans hbc hab

theorem confDesc_total : ∀ a b : Detection, confDesc a b || confDesc b a := by
  intro a b
  simp only [confDesc, Bool.or_eq_true, decide_eq_true_eq]
  exact le_total b.confidence a.confidence

theorem apply_nms_mem (boxes : List Detection) (t : ℚ) :
    ∀ b ∈ apply_nms boxes t, b ∈ boxes := by
  intro b hb
  unfold apply_nms at hb
  split at hb
  · simp at hb
  · exact List.mem_mergeSort.mp ((nmsLoop_sublist t _).subset hb)

theorem apply_nms_sorted_bool (boxes : List Detection) (t : ℚ) :
    (apply_nms boxes t).Pairwise (fun a b => confDesc a b = true) := by
  unfold apply_nms
  split
  · simp
  · exact List.Pairwise.sublist (nmsLoop_sublist t _)
      (List.sorted_mergeSort confDesc_trans confDesc_total boxes)

theorem apply_nms_sorted (boxes : List Detection) (t : ℚ) :
    (apply_nms boxes t).Pairwise (fun a b => b.confidence ≤ a.confidence) := by
  refine (apply_nms_sorted_bool boxes t).imp ?_
  intro a b hab
  simpa [confDesc] using hab

theorem apply_nms_pairwise_iou (boxes : List Detection) (t : ℚ) :
    (apply_nms boxes t).Pairwise (fun a b => calculate_iou a b < t) := by
  unfold apply_nms
  split
  · simp
  · exact nmsLoop_pairwise_iou t _

theorem apply_nms_eq_self (l : List Detection) (t : ℚ)
    (hs : l.Pairwise (fun a b => confDesc a b = true))
    (hp : l.Pairwise (fun a b => calculate_iou a b < t)) :
    apply_nms l t = l := by
  rcases eq_or_ne l [] with rfl | hne
  · simp [apply_nms]
  · unfold apply_nms
    rw [if_neg hne, List.mergeSort_of_sorted hs, nmsLoop_eq_self t l hp]

/-- C1: for every input list and threshold, the output of `apply_nms`
is a subset of the input, is sorted by non-increasing confidence, and
every pair of distinct retained boxes has IoU (in both argument orders)
strictly below the threshold. -/
theorem apply_nms_correct (boxes : List Detection) (t : ℚ) :
    (∀ b ∈ apply_nms boxes t, b ∈ boxes) ∧
      (apply_nms boxes t).Pairwise (fun a b => b.confidence ≤ a.confidence) ∧
      (apply_nms boxes t).Pairwise
        (fun a b => calculate_iou a b < t ∧ calculate_iou b a < t) := by
  refine ⟨apply_nms_mem boxes t, apply_nms_sorted boxes t, ?_⟩
  refine (apply_nms_pairwise_iou boxes t).imp ?_
  intro a b hab
  refine ⟨hab, ?_⟩
  rwa [calculate_iou_comm]

/-- C6: `apply_nms` is idempotent; applying it to its own output with
the same threshold returns the output unchanged. -/
theorem apply_nms_idempotent (boxes : List Detection) (t : ℚ) :
    apply_nms (apply_nms boxes t) t = apply_nms boxes t :=
  apply_nms_eq_self (apply_nms boxes t) t (apply_nms_sorted_bool boxes t)
    (apply_nms_pairwise_iou boxes t)

/-! ### The argmax and max of a score column -/

theorem argmaxGo_eq_best (l : List ℚ) :
    ∀ i best v, (∀ x ∈ l, x ≤ v) → argmaxGo l i best v = best := by
  induction l with
  | nil => intro i best v _; rfl
  | cons a rest ih =>
      intro i best v h
      rw [argmaxGo, if_neg (not_lt.mpr (h a (by simp)))]
      exact ih _ _ _ (fun x hx => h x (by simp [hx]))

theorem argmaxGo_cases (l : List ℚ) :
    ∀ i best v, argmaxGo l i best v = best ∨ i ≤ argmaxGo l i best v := by
  induction l with
  | nil => intro i best v; exact Or.inl rfl
  | cons a rest ih =>
      intro i best v
      rw [argmaxGo]
      by_cases h : v < a
      · rw [if_pos h]
        right
        rcases ih (i + 1) i a with h1 | h1 <;> omega
      · rw [if_neg h]
        rcases ih (i + 1) best v with h1 | h1
        · exact Or.inl h1
        · right
          omega

theorem argmaxGo_ge_of_exists (l : List ℚ) :
    ∀ i best v, (∃ x ∈ l, v < x) → i ≤ argmaxGo l i best v := by
  induction l with
  | nil =>
      rintro i best v ⟨x, hx, -⟩
      simp at hx
  | cons a rest ih =>
      rintro i best v ⟨x, hx, hvx⟩
      rw [argmaxGo]
      by_cases h : v < a
      · rw [if_pos h]
        rcases argmaxGo_cases rest (i + 1) i a with h1 | h1 <;> omega
      · rw [if_neg h]
        have hxr : x ∈ rest := by
          rcases List.mem_cons.mp hx with rfl | hr
          · exact absurd hvx h
          · exact hr
        have := ih (i + 1) best v ⟨x, hxr, hvx⟩
        omega

/-- The argmax of a nonempty score list is 0 exactly when the head is a
maximum: the first-occurrence tie-break means class 0 wins every tie it
participates in. -/
theorem listArgmax_eq_zero_iff (a : ℚ) (rest : List ℚ) :
    listArgmax (a :: rest) = 0 ↔ ∀ x ∈ rest, x ≤ a := by
  rw [listArgmax]
  constructor
  · intro h x hx
    by_contra hlt
    push_neg at hlt
    have := argmaxGo_ge_of_exists rest 1 0 a ⟨x, hx, hlt⟩
    omega
  · intro h
    exact argmaxGo_eq_best rest 1 0 a h

theorem headIsMax_cons (a : ℚ) (rest : List ℚ) :
    headIsMax (a :: rest) ↔ ∀ x ∈ rest, x ≤ a := by
  unfold headIsMax
  simp only [List.headD_cons, List.mem_cons]
  constructor
  · intro h x hx
    exact h x (Or.inr hx)
  · rintro h x (rfl | hx)
    · exact le_rfl
    · exact h x hx

theorem foldl_max_le (l : List ℚ) :
    ∀ a c, a ≤ c → (∀ x ∈ l, x ≤ c) → l.foldl max a ≤ c := by
  induction l with
  | nil =>
      intro a c ha _
      simpa using ha
  | cons b rest ih =>
      intro a c ha h
      rw [List.foldl_cons]
      exact ih _ _ (max_le ha (h b (by simp))) (fun x hx => h x (by simp [hx]))

theorem listMax_le (l : List ℚ) (c : ℚ) (h0 : 0 ≤ c)
    (h : ∀ x ∈ l, x ≤ c) : listMax l ≤ c := by
  cases l with
  | nil => simpa [listMax] using h0
  | cons a rest =>
      exact foldl_max_le rest a c (h a (by simp)) (fun x hx => h x (by simp [hx]))

/-! ### The decoder -/

/-- Zeta-reduced unfolding of `extract_detections`. -/
theorem extract_detections_eq (output : List (List ℚ)) (t : ℚ) :
    extract_detections output t =
      (List.range (numCols output)).filterMap (fun i =>
        if listArgmax (colScores output i) = 0 ∧ t ≤ listMax (colScores output i)
        then some { cx := colVal output 0 i, cy := colVal output 1 i,
                    w := colVal output 2 i, h := colVal output 3 i,
                    confidence := listMax (colScores output i),
                    class_id := listArgmax (colScores output i) }
        else none) := rfl

theorem filterMap_ite_eq_map_filter {α β : Type} (p : α → Prop) [DecidablePred p]
    (f : α → β) (l : List α) :
    (l.filterMap (fun x => if p x then some (f x) else none))
      = (l.filter (fun x => decide (p x))).map f := by
  induction l with
  | nil => rfl
  | cons a l ih => by_cases h : p a <;> simp [h, ih]

theorem colScores_ne_nil (output : List (List ℚ)) (i : ℕ)
    (h5 : 5 ≤ output.length) : colScores output i ≠ [] := by
  unfold colScores
  simp only [ne_eq, List.map_eq_nil_iff, List.drop_eq_nil_iff]
  omega

/-- C7: the decoder emits a candidate for column `i` exactly when the
class-0 score attains the column maximum (the tie-broken argmax is the
target class 0) and the maximum reaches the threshold; failing columns
are dropped, and columns are scanned in ascending index order. -/
theorem extract_detections_spec (output : List (List ℚ)) (t : ℚ)
    (h5 : 5 ≤ output.length) :
    extract_detections output t =
      ((List.range (numCols output)).filter (fun i =>
          decide (headIsMax (colScores output i) ∧
            t ≤ listMax (colScores output i)))).map (specCandidate output) := by
  have hpoint : ∀ i : ℕ,
      (if listArgmax (colScores output i) = 0 ∧ t ≤ listMax (colScores output i)
        then some { cx := colVal output 0 i, cy := colVal output 1 i,
                    w := colVal output 2 i, h := colVal output 3 i,
                    confidence := listMax (colScores output i),
                    class_id := listArgmax (colScores output i) }
        else none)
      = (if headIsMax (colScores output i) ∧ t ≤ listMax (colScores output i)
         then some (specCandidate output i) else (none : Option Candidate)) := by
    intro i
    obtain ⟨a, rest, hcons⟩ : ∃ a rest, colScores output i = a :: rest := by
      cases hcs : colScores output i with
      | nil => exact absurd hcs (colScores_ne_nil output i h5)
      | cons a rest => exact ⟨a, rest, rfl⟩
    have hiff : listArgmax (colScores output i) = 0 ↔
        headIsMax (colScores output i) := by
      rw [hcons, listArgmax_eq_zero_iff, headIsMax_cons]
    by_cases h : headIsMax (colScores output i) ∧ t ≤ listMax (colScores output i)
    · rw [if_pos ⟨hiff.mpr h.1, h.2⟩, if_pos h, hiff.mpr h.1]
      rfl
    · rw [if_neg, if_neg h]
      intro hc
      exact h ⟨hiff.mp hc.1, hc.2⟩
  rw [extract_detections_eq, List.filterMap_congr (fun i _ => hpoint i),
    filterMap_ite_eq_map_filter]

/-- C7 (witness): the characterization at a concrete five-row,
one-column tensor whose single class score passes the threshold. -/
theorem extract_detections_spec_witness :
    5 ≤ ([[1], [2], [3], [4], [1/2]] : List (List ℚ)).length ∧
      extract_detections [[1], [2], [3], [4], [1/2]] (45/100) =
        ((List.range (numCols [[1], [2], [3], [4], [(1:ℚ)/2]])).filter (fun i =>
            decide (headIsMax (colScores [[1], [2], [3], [4], [1/2]] i) ∧
              (45/100 : ℚ) ≤ listMax (colScores [[1], [2], [3], [4], [1/2]] i)))).map
          (specCandidate [[1], [2], [3], [4], [1/2]]) :=
  ⟨by decide, extract_detections_spec [[1], [2], [3], [4], [1/2]] (45/100) (by decide)⟩

/-- C5 (counterexample): a tensor carrying a class-0 score of 2 makes
the decoder emit a candidate even at threshold 1.1, because raw scores
are not restricted to the unit interval. -/
theorem extract_detections_threshold_counterexample :
    extract_detections [[0], [0], [1], [1], [2]] (11/10) ≠ [] := by
  with_unfolding_all decide

/-- C5 (amended): whenever every class-score entry of the tensor is at
most 1, the decoder with threshold 1.1 yields the empty sequence. -/
theorem extract_detections_empty_of_bounded (output : List (List ℚ))
    (hb : ∀ row ∈ output.drop 4, ∀ x ∈ row, x ≤ 1) :
    extract_detections output (11/10) = [] := by
  rw [extract_detections_eq, List.filterMap_eq_nil_iff]
  intro i _
  rw [if_neg]
  rintro ⟨-, hmax⟩
  have hle : listMax (colScores output i) ≤ 1 := by
    apply listMax_le _ _ (by norm_num)
    intro x hx
    obtain ⟨row, hrow, rfl⟩ := List.mem_map.mp hx
    by_cases hi : i < row.length
    · have hmem : row.getD i 0 ∈ row := by
        simp only [List.getD_eq_getElem?_getD, List.getElem?_eq_getElem hi,
          Option.getD_some]
        exact List.getElem_mem hi
      exact hb row hrow _ hmem
    · rw [List.getD_eq_getElem?_getD, List.getElem?_eq_none (Nat.le_of_not_lt hi),
        Option.getD_none]
      norm_num
  linarith

/-- C5 (witness): the amended theorem at a concrete tensor whose only
class score is 1. -/
theorem extract_detections_empty_of_bounded_witness :
    (∀ row ∈ ([[0], [0], [1], [1], [1]] : List (List ℚ)).drop 4,
        ∀ x ∈ row, x ≤ 1) ∧
      extract_detections [[0], [0], [1], [1], [1]] (11/10) = [] :=
  ⟨by decide, extract_detections_empty_of_bounded [[0], [0], [1], [1], [1]]
    (by decide)⟩

/-! ### The full post-processing pipeline -/

theorem extract_class_id_eq_zero (output : List (List ℚ)) (t : ℚ) :
    ∀ c ∈ extract_detections output t, c.class_id = 0 := by
  intro c hc
  rw [extract_detections_eq] at hc
  simp only [List.mem_filterMap, List.mem_range] at hc
  obtain ⟨i, -, hi⟩ := hc
  split at hi
  · next h =>
      obtain rfl := Option.some.inj hi
      exact h.1
  · exact absurd hi (by simp)

theorem apply_nms_singleton (d : Detection) (t : ℚ) : apply_nms [d] t = [d] := by
  unfold apply_nms
  rw [if_neg (by simp), List.mergeSort_singleton]
  rw [nmsLoop, List.filter_nil, nmsLoop]

/-- C10: every detection returned by the post-processing pipeline has
class id 0 and the label "person"; candidates of any other class are
never emitted. -/
theorem postprocess_output_person (output : List (List ℚ))
    (original_size : ℚ × ℚ) (ct it isz : ℚ) :
    ∀ d ∈ postprocess_output output original_size ct it isz,
      d.class_id = 0 ∧ d.label = "person" := by
  intro d hd
  simp only [postprocess_output] at hd
  have hd2 := apply_nms_mem _ _ d hd
  obtain ⟨cand, hcand, rfl⟩ := List.mem_map.mp hd2
  exact ⟨extract_class_id_eq_zero output ct cand hcand, rfl⟩

/-- The single detection produced by the concrete tensor used in the
pipeline witnesses below. -/
def personBox : Detection :=
  { x := -1, y := -1, width := 2, height := 2, confidence := 1,
    label := "person", class_id := 0 }

theorem postprocess_concrete :
    postprocess_output [[0], [0], [2], [2], [1]] (640, 640) 1 1 640
      = [personBox] := by
  have h1 : extract_detections [[0], [0], [2], [2], [1]] 1
      = [{ cx := 0, cy := 0, w := 2, h := 2, confidence := 1, class_id := 0 }] := by
    decide
  have hc : convert_coordinates 0 0 2 2 (640, 640) 640 = (-1, -1, 2, 2) := by
    norm_num [convert_coordinates]
  simp only [postprocess_output, h1, List.map_cons, List.map_nil, hc]
  rw [apply_nms_singleton]
  rfl

/-- C10 (witness): the pipeline invariant checked on the concrete
output of `postprocess_concrete`. -/
theorem postprocess_output_person_witness :
    personBox ∈ postprocess_output [[0], [0], [2], [2], [1]] (640, 640) 1 1 640 ∧
      personBox.class_id = 0 ∧ personBox.label = "person" := by
  have hmem : personBox ∈ postprocess_output [[0], [0], [2], [2], [1]]
      (640, 640) 1 1 640 := by
    rw [postprocess_concrete]
    simp
  exact ⟨hmem, postprocess_output_person [[0], [0], [2], [2], [1]]
    (640, 640) 1 1 640 personBox hmem⟩

/-- C2 (counterexample): a tensor column with negative raw width and
height flows through the whole pipeline unclamped: the final output of
`postprocess_output` (hence the input of `apply_nms` and
`calculate_iou`) contains a box of width -2. -/
theorem postprocess_negative_width_counterexample :
    (postprocess_output [[0], [0], [-2], [-2], [1]] (640, 640) 1 1 640).map
        Detection.width = [-2] ∧ ¬ (0 : ℚ) ≤ -2 := by
  constructor
  · have h1 : extract_detections [[0], [0], [-2], [-2], [1]] 1
        = [{ cx := 0, cy := 0, w := -2, h := -2, confidence := 1,
             class_id := 0 }] := by
      decide
    have hc : convert_coordinates 0 0 (-2) (-2) (640, 640) 640
        = (1, 1, -2, -2) := by
      norm_num [convert_coordinates]
    simp only [postprocess_output, h1, List.map_cons, List.map_nil, hc]
    rw [apply_nms_singleton]
    rfl
  · norm_num

/-- A box of zero width, hence non-positive area. -/
def zeroBox : Detection :=
  { x := 0, y := 0, width := 0, height := 5, confidence := 1,
    label := "person", class_id := 0 }

/-- C2 (witness): the amended guarantee at the concrete pair
`(zeroBox, okBox)`. -/
theorem calculate_iou_nonpos_area_witness :
    (zeroBox.width * zeroBox.height ≤ 0 ∨ okBox.width * okBox.height ≤ 0) ∧
      calculate_iou zeroBox okBox = 0 :=
  ⟨Or.inl (by norm_num [zeroBox]),
    calculate_iou_nonpos_area zeroBox okBox (Or.inl (by norm_num [zeroBox]))⟩

/-! ### The `/detect` handler -/

/-- A concrete request whose image bytes fail to decode: preprocessing
raises, modelling a malformed-image POST with valid default
parameters. -/
def decodeErrRequest : DetectRequest :=
  { bodyNonempty := true, confidenceParse := .ok (45/100),
    iouParse := .ok (1/2),
    preprocessResult := .error "cannot identify image file",
    inferResult := .ok [] }

/-- C3 (counterexample): the malformed-image request is answered with
status 500, which is not a 400-class status. -/
theorem detect_decode_error_counterexample :
    (detect true decodeErrRequest).1 = 500 ∧
      ¬(400 ≤ (detect true decodeErrRequest).1 ∧
        (detect true decodeErrRequest).1 < 500) := by
  have h : (detect true decodeErrRequest).1 = 500 := rfl
  refine ⟨h, ?_⟩
  rw [h]
  omega

/-- C3 (amended): with the model loaded and a nonempty body, a failing
threshold parse (non-numeric parameter) or a failing image decode is
answered with HTTP 500 by the blanket exception handler, never with a
400-class status. -/
theorem detect_stage_error_500 (req : DetectRequest)
    (hbody : req.bodyNonempty = true)
    (herr : (∃ m, req.confidenceParse = .error m) ∨
      (∃ m, req.iouParse = .error m) ∨
      (∃ m, req.preprocessResult = .error m)) :
    (detect true req).1 = 500 := by
  obtain ⟨b, cp, ip, pr, ir⟩ := req
  cases b with
  | false => simp at hbody
  | true =>
    cases cp with
    | error m => rfl
    | ok cq =>
      cases ip with
      | error m => rfl
      | ok iq =>
        cases pr with
        | error m => rfl
        | ok pq => simp at herr

/-- C3 (witness): the amended statement at the concrete
`decodeErrRequest`. -/
theorem detect_stage_error_500_witness :
    decodeErrRequest.bodyNonempty = true ∧
      ((∃ m, decodeErrRequest.confidenceParse = .error m) ∨
        (∃ m, decodeErrRequest.iouParse = .error m) ∨
        (∃ m, decodeErrRequest.preprocessResult = .error m)) ∧
      (detect true decodeErrRequest).1 = 500 :=
  ⟨rfl, Or.inr (Or.inr ⟨_, rfl⟩),
    detect_stage_error_500 decodeErrRequest rfl (Or.inr (Or.inr ⟨_, rfl⟩))⟩

/-- C8: with the model loaded, a request with an empty body is answered
400 with the fixed error payload, whatever the outcome of every later
pipeline stage would have been: none of them is consulted. -/
theorem detect_empty_body (cp ip : Except String ℚ)
    (pr : Except String (ℚ × ℚ)) (ir : Except String (List (List ℚ))) :
    detect true ⟨false, cp, ip, pr, ir⟩
      = (400, .errorMsg "No image data provided") := rfl

end YoloServer
